import Mathlib

/-!
Verification of the skylight-mcp server's specification against a shallow
embedding of its source (src/api/client.ts, src/config.ts, src/utils/dates.ts,
src/utils/errors.ts, src/api/endpoints/calendar.ts).

Modelling conventions:
* JavaScript strings are Lean `String`s; the JS string operations the source
  uses (`toLowerCase`, `trim`, `padStart`, regular-expression tests) are
  embedded as explicit functions over `List Char` below.
* Machine clock values are civil day numbers (`Int`, days since 1970-01-01).
  The platform `Date` object is modelled at a single effective time zone:
  `new Date()` is the day number `today`, `toISOString().split("T")[0]` and
  `toLocaleDateString("en-CA")` are `formatIsoDate`.  Offsets between distinct
  zones (and DST) are not modelled; the optional timezone string is carried
  where the source carries it but selects no alternative zone in the model.
* `fetch` and the login network exchange are oracles passed explicitly.
-/

namespace Skylight

/-! ## Embedded JavaScript string primitives -/

/-- ASCII lower-casing of a character, as `String.prototype.toLowerCase`
acts on the ASCII range (all inputs relevant here are ASCII). -/
def charToLower (c : Char) : Char :=
  if 65 ≤ c.toNat ∧ c.toNat ≤ 90 then Char.ofNat (c.toNat + 32) else c

/-- The character class `\d` of JavaScript regular expressions (ASCII digits). -/
def isDigitChar (c : Char) : Bool :=
  48 ≤ c.toNat && c.toNat ≤ 57

/-- The JS whitespace class used by `String.prototype.trim` and `\s`
(the members that can occur in tool input; all are handled alike). -/
def isWsChar (c : Char) : Bool :=
  c.toNat = 32 || c.toNat = 9 || c.toNat = 10 || c.toNat = 13 ||
  c.toNat = 11 || c.toNat = 12 || c.toNat = 160 || c.toNat = 65279

/-- `String.prototype.toLowerCase`. -/
def jsToLower (s : String) : String :=
  ⟨s.data.map charToLower⟩

/-- Remove trailing whitespace from a character list. -/
def trimRightWs (l : List Char) : List Char :=
  (l.reverse.dropWhile isWsChar).reverse

/-- `String.prototype.trim` on a character list. -/
def jsTrimList (l : List Char) : List Char :=
  trimRightWs (l.dropWhile isWsChar)

/-- `String.prototype.trim`. -/
def jsTrim (s : String) : String :=
  ⟨jsTrimList s.data⟩

/-- `String.prototype.padStart(2, "0")` on a character list. -/
def padStart2 (l : List Char) : List Char :=
  match l with
  | [] => ['0', '0']
  | [a] => ['0', a]
  | l => l

/-- Leading span of characters satisfying `p` (used to model greedy `\d`
groups of the source's anchored regular expressions). -/
def spanAux (p : Char → Bool) : List Char → List Char × List Char
  | [] => ([], [])
  | a :: as =>
    if p a then
      let (t, r) := spanAux p as
      (a :: t, r)
    else ([], a :: as)

/-- The decimal digit characters. -/
def digitChars : List Char := ['0', '1', '2', '3', '4', '5', '6', '7', '8', '9']

/-- The character for a decimal digit value. -/
def digitChar (k : Nat) : Char :=
  digitChars.getD (k % 10) '0'

/-- Decimal digits of a natural number, fuelled structural recursion (the
fuel bounds the digit count; `natToDigits` supplies enough). -/
def natToDigitsAux : Nat → Nat → List Char
  | 0, _ => []
  | fuel + 1, n =>
    if n < 10 then [digitChar n]
    else natToDigitsAux fuel (n / 10) ++ [digitChar n]

/-- Decimal digits of a natural number (`Number.prototype.toString`). -/
def natToDigits (n : Nat) : List Char :=
  natToDigitsAux (n + 1) n

/-- Value of a list of decimal digit characters (`parseInt(s, 10)` on an
all-digit string). -/
def natOfDigits (l : List Char) : Nat :=
  l.foldl (fun acc c => 10 * acc + (c.toNat - 48)) 0

/-- Left-pad the decimal digits of `n` with zeros to width `w`. -/
def padNat (w n : Nat) : List Char :=
  let ds := natToDigits n
  List.replicate (w - ds.length) '0' ++ ds

/-! ## Civil date arithmetic (the platform `Date` object at a fixed zone)

`Date` stores an instant; the source only ever uses whole civil days
(`T00:00:00` suffixes, `setDate`, `toISOString().split("T")[0]`), so a date is
modelled as a day number: days since 1970-01-01 (`Int`).  The conversions use
the standard civil-from-days / days-from-civil algorithms. -/

/-- Civil `(year, month, day)` from a day count since 0000-03-01. -/
def civilFromDaysN (n : Nat) : Nat × Nat × Nat :=
  let era := n / 146097
  let doe := n % 146097
  let yoe := (doe - doe / 1460 + doe / 36524 - doe / 146096) / 365
  let y := yoe + era * 400
  let doy := doe - (365 * yoe + yoe / 4 - yoe / 100)
  let mp := (5 * doy + 2) / 153
  let d := doy - (153 * mp + 2) / 5 + 1
  let m := if mp < 10 then mp + 3 else mp - 9
  (if m ≤ 2 then y + 1 else y, m, d)

/-- `YYYY-MM-DD` rendering of a day number (the `toISOString` date part /
`en-CA` locale rendering used throughout `dates.ts`). -/
def formatIsoDate (z : Int) : String :=
  let n := (z + 719468).toNat
  let c := civilFromDaysN n
  ⟨padNat 4 c.1 ++ '-' :: padNat 2 c.2.1 ++ '-' :: padNat 2 c.2.2⟩

/-- Day number since 1970-01-01 of a civil date. -/
def daysFromCivil (y m d : Nat) : Int :=
  let y' : Int := if m ≤ 2 then (y : Int) - 1 else (y : Int)
  let era := y'.fdiv 400
  let yoe := (y' - era * 400).toNat
  let mp := if 2 < m then m - 3 else m + 9
  let doy := (153 * mp + 2) / 5 + d - 1
  let doe := yoe * 365 + yoe / 4 - yoe / 100 + doy
  era * 146097 + (doe : Int) - 719468

/-- Number of days in a month (Gregorian). -/
def daysInMonth (y m : Nat) : Nat :=
  if m = 2 then
    if y % 4 = 0 && (y % 100 ≠ 0 || y % 400 = 0) then 29 else 28
  else if m = 4 || m = 6 || m = 9 || m = 11 then 30
  else 31

/-- JS day-of-week (`Date.prototype.getDay`, 0 = Sunday) of a day number;
1970-01-01 was a Thursday. -/
def jsGetDay (z : Int) : Nat :=
  ((z + 4) % 7).toNat

/-! ## dates.ts -/

/-- `getTodayDate` of dates.ts: today's date in `YYYY-MM-DD` form.  The
clocked value is the explicit `today` day number; both the timezone and
non-timezone branches render the current civil date in the model's zone. -/
def getTodayDate (today : Int) (timezone : Option String) : String :=
  match timezone with
  | some _ => formatIsoDate today
  | none => formatIsoDate today

/-- `getDateOffset` of dates.ts: the date `days` from today.  `setDate` on a
whole-day `Date` value adds whole days to the day number. -/
def getDateOffset (today : Int) (days : Int) (timezone : Option String) : String :=
  match timezone with
  | some _ => formatIsoDate (today + days)
  | none => formatIsoDate (today + days)

/-- The weekday-name table of `parseDate`. -/
def weekdayNames : List String :=
  ["sunday", "monday", "tuesday", "wednesday", "thursday", "friday", "saturday"]

/-- `Array.prototype.indexOf` (first index, `-1` when absent). -/
def jsIndexOf : List String → String → Int
  | [], _ => -1
  | a :: as, x =>
    if a = x then 0
    else
      let r := jsIndexOf as x
      if r = -1 then -1 else r + 1

/-- The test `/^\d\x7b4\x7d-\d\x7b2\x7d-\d\x7b2\x7d$/.test(input)` of
`parseDate`: exactly `NNNN-NN-NN` with ASCII digits. -/
def isIsoDateShape (s : String) : Bool :=
  match s.data with
  | [y1, y2, y3, y4, h1, m1, m2, h2, d1, d2] =>
    isDigitChar y1 && isDigitChar y2 && isDigitChar y3 && isDigitChar y4 &&
    h1 = '-' && isDigitChar m1 && isDigitChar m2 &&
    h2 = '-' && isDigitChar d1 && isDigitChar d2
  | _ => false

/-- The anchored match `/^(\d\x7b1,2\x7d)\/(\d\x7b1,2\x7d)\/(\d\x7b4\x7d)$/`
of `parseDate` (US `M/D/YYYY` dates), returning the three capture groups.
The greedy spans are equivalent to the backtracking regex because a digit can
never also match `/`. -/
def matchUsDate (l : List Char) : Option (List Char × List Char × List Char) :=
  let s1 := spanAux isDigitChar l
  if 1 ≤ s1.1.length ∧ s1.1.length ≤ 2 then
    match s1.2 with
    | '/' :: r2 =>
      let s2 := spanAux isDigitChar r2
      if 1 ≤ s2.1.length ∧ s2.1.length ≤ 2 then
        match s2.2 with
        | '/' :: r4 =>
          if r4.length = 4 ∧ r4.all isDigitChar then some (s1.1, s2.1, r4) else none
        | _ => none
      else none
    | _ => none
  else none

/-- `parseDate` of dates.ts.  `gp` is the platform's generic date parser
(`new Date(input)` for inputs that are none of the recognized shapes),
returning the parsed instant's civil day or `none` for an invalid date;
`today` is the current civil day (`new Date()`). -/
def parseDate (gp : String → Option Int) (today : Int)
    (input : String) (timezone : Option String) : String :=
  let lower := jsTrim (jsToLower input)
  if lower = "today" then getTodayDate today timezone
  else if lower = "tomorrow" then getDateOffset today 1 timezone
  else if lower = "yesterday" then getDateOffset today (-1) timezone
  else
    let dayIndex := jsIndexOf weekdayNames lower
    if dayIndex ≠ -1 then
      let todayDay : Int := jsGetDay today
      let daysUntil := dayIndex - todayDay
      let daysUntil' := if daysUntil ≤ 0 then daysUntil + 7 else daysUntil
      getDateOffset today daysUntil' timezone
    else if isIsoDateShape input then input
    else
      match matchUsDate input.data with
      | some g => ⟨g.2.2 ++ '-' :: padStart2 g.1 ++ '-' :: padStart2 g.2.1⟩
      | none =>
        match gp input with
        | some z => formatIsoDate z
        | none => input

/-- Body of `matchHM` on the two halves of the leading digit span. -/
def matchHMCore (hs rest : List Char) : Option (List Char × List Char) :=
  if 1 ≤ hs.length ∧ hs.length ≤ 2 then
    match rest with
    | ':' :: ms =>
      if ms.length = 2 ∧ ms.all isDigitChar then some (hs, ms) else none
    | _ => none
  else none

/-- The anchored test `/^\d\x7b1,2\x7d:\d\x7b2\x7d$/` of `parseTime` together
with the `split(":")` extraction it guards: hour digits and minute digits. -/
def matchHM (l : List Char) : Option (List Char × List Char) :=
  matchHMCore (spanAux isDigitChar l).1 (spanAux isDigitChar l).2

/-- Body of `matchHMPeriod` on the two halves of the leading digit span. -/
def matchHMPeriodCore (hs rest : List Char) : Option (List Char × List Char × Bool) :=
  if 1 ≤ hs.length ∧ hs.length ≤ 2 then
    match rest with
    | ':' :: r2 =>
      if (r2.take 2).length = 2 ∧ (r2.take 2).all isDigitChar then
        match (r2.drop 2).dropWhile isWsChar with
        | [a, m] =>
          if (charToLower a = 'a' ∨ charToLower a = 'p') ∧ charToLower m = 'm' then
            some (hs, r2.take 2, charToLower a = 'p')
          else none
        | _ => none
      else none
    | _ => none
  else none

/-- The anchored case-insensitive match
`/^(\d\x7b1,2\x7d):(\d\x7b2\x7d)\s*(AM|PM)$/i` of `parseTime`; the `Bool` is
true for PM. -/
def matchHMPeriod (l : List Char) : Option (List Char × List Char × Bool) :=
  matchHMPeriodCore (spanAux isDigitChar l).1 (spanAux isDigitChar l).2

/-- `parseTime` of dates.ts: normalize a time string to 24-hour `HH:MM`. -/
def parseTime (input : String) : String :=
  let t := jsTrimList input.data
  match matchHM t with
  | some g => ⟨padStart2 g.1 ++ ':' :: g.2⟩
  | none =>
    match matchHMPeriod t with
    | some g =>
      let h := natOfDigits g.1
      let h' := if g.2.2 = true ∧ h ≠ 12 then h + 12
                else if g.2.2 = false ∧ h = 12 then 0
                else h
      ⟨padStart2 (natToDigits h') ++ ':' :: g.2.1⟩
    | none => ⟨t⟩

/-! ## calendar.ts -/

/-- The parse `new Date(dateStr + "T00:00:00")` performed by `addDays` of
calendar.ts, for ISO `YYYY-MM-DD` inputs; any other input (or an
out-of-range component) yields an invalid date, `none`. -/
def parseIsoDate (s : String) : Option (Nat × Nat × Nat) :=
  match s.data with
  | [y1, y2, y3, y4, h1, m1, m2, h2, d1, d2] =>
    if h1 = '-' ∧ h2 = '-' ∧
        ([y1, y2, y3, y4, m1, m2, d1, d2].all isDigitChar) = true then
      let y := natOfDigits [y1, y2, y3, y4]
      let m := natOfDigits [m1, m2]
      let d := natOfDigits [d1, d2]
      if 1 ≤ m ∧ m ≤ 12 ∧ 1 ≤ d ∧ d ≤ daysInMonth y m then some (y, m, d) else none
    else none
  | _ => none

/-- `addDays` of calendar.ts: add days to a `YYYY-MM-DD` date string.
`none` models the `RangeError` thrown by `toISOString` on an invalid date. -/
def addDays (dateStr : String) (days : Int) : Option String :=
  (parseIsoDate dateStr).map fun c => formatIsoDate (daysFromCivil c.1 c.2.1 c.2.2 + days)

/-! ## config.ts -/

/-- The `authType` enumeration (`"bearer" | "basic"`). -/
inductive AuthType where
  | bearer
  | basic
deriving DecidableEq, Repr

/-- The validated configuration object (`Config` of config.ts).  Optional
string fields are `Option String`. -/
structure Config where
  email : Option String
  password : Option String
  token : Option String
  authType : AuthType
  frameId : String
  timezone : String
deriving DecidableEq, Repr

/-- JS truthiness of a `string | undefined` value: present and non-empty. -/
def truthy : Option String → Bool
  | none => false
  | some s => !(s = "")

/-- `usesEmailAuth` of config.ts: `!!(config.email && config.password)`. -/
def usesEmailAuth (config : Config) : Bool :=
  truthy config.email && truthy config.password

/-- The zod `refine` check of the config schema: either email+password or a
token must be present (truthily). -/
def validConfig (config : Config) : Bool :=
  (truthy config.email && truthy config.password) || truthy config.token

/-! ## errors.ts -/

/-- The `SkylightError` hierarchy of errors.ts, flattened to its observable
fields (`name` distinguishes the subclass). -/
structure SkylightError where
  name : String
  message : String
  code : String
  statusCode : Option Nat
  recoverable : Bool
deriving DecidableEq, Repr

/-- The default message of `AuthenticationError`. -/
def authDefaultMessage : String :=
  "Authentication failed. Your token may be expired or invalid."

/-- `AuthenticationError` of errors.ts. -/
def authenticationError (message : String := authDefaultMessage) : SkylightError :=
  ⟨"AuthenticationError", message, "AUTH_FAILED", some 401, true⟩

/-- `NotFoundError` of errors.ts. -/
def notFoundError (resource : String) : SkylightError :=
  ⟨"NotFoundError", resource ++ " not found", "NOT_FOUND", some 404, false⟩

/-- `RateLimitError` of errors.ts; `retryAfter` is the parsed integer
(`none` when the header was absent). -/
def rateLimitError (retryAfter : Option Int) : SkylightError :=
  ⟨"RateLimitError",
    "Rate limited by Skylight API. " ++
      (match retryAfter with
       | some n => "Retry after " ++ toString n ++ "s"
       | none => "Please wait and try again."),
    "RATE_LIMITED", some 429, true⟩

/-- A plain `SkylightError` (the generic HTTP failure constructor). -/
def skylightError (message code : String) (statusCode : Option Nat)
    (recoverable : Bool) : SkylightError :=
  ⟨"SkylightError", message, code, statusCode, recoverable⟩

/-! ## client.ts -/

/-- The mutable fields of `SkylightClient`. -/
structure ClientState where
  resolvedToken : Option String
  resolvedUserId : Option String
  subscriptionStatus : Option String
deriving DecidableEq, Repr

/-- The value resolved by a successful `login` exchange (auth.ts). -/
structure LoginResult where
  token : String
  userId : String
  email : String
  subscriptionStatus : String
deriving DecidableEq, Repr

/-- `getCredentials` of client.ts.  `loginRes` is the outcome of the login
network exchange were one performed now (the in-flight-promise sharing is
modelled separately for the concurrency claim; this is the sequential data
path of a single caller). -/
def getCredentials (config : Config) (st : ClientState)
    (loginRes : Except SkylightError LoginResult) :
    ClientState × Except SkylightError (String × Option String) :=
  match st.resolvedToken with
  | some t => (st, .ok (t, st.resolvedUserId))
  | none =>
    if usesEmailAuth config = false then
      (st, .ok (config.token.getD "", none))
    else
      if truthy config.email = false ∨ truthy config.password = false then
        (st, .error (authenticationError "Email and password are required for login"))
      else
        match loginRes with
        | .error e => (st, .error e)
        | .ok r =>
          ({ st with
              resolvedToken := some r.token
              resolvedUserId := some r.userId
              subscriptionStatus := some r.subscriptionStatus },
            .ok (r.token, some r.userId))

/-- The base-64 alphabet. -/
def base64Chars : List Char :=
  "ABCDEFGHIJKLMNOPQRSTUVWXYZabcdefghijklmnopqrstuvwxyz0123456789+/".data

/-- Base-64 encoding of a byte list (`Buffer.from(s).toString("base64")`). -/
def base64EncodeBytes : List Nat → List Char
  | [] => []
  | [a] =>
    [base64Chars.getD (a / 4) 'A', base64Chars.getD (a % 4 * 16) 'A', '=', '=']
  | [a, b] =>
    [base64Chars.getD (a / 4) 'A', base64Chars.getD (a % 4 * 16 + b / 16) 'A',
      base64Chars.getD (b % 16 * 4) 'A', '=']
  | a :: b :: c :: rest =>
    base64Chars.getD (a / 4) 'A' :: base64Chars.getD (a % 4 * 16 + b / 16) 'A' ::
      base64Chars.getD (b % 16 * 4 + c / 64) 'A' :: base64Chars.getD (c % 64) 'A' ::
      base64EncodeBytes rest

/-- `Buffer.from(s).toString("base64")` for a string (UTF-8 bytes). -/
def base64Encode (s : String) : String :=
  ⟨base64EncodeBytes (s.toUTF8.toList.map UInt8.toNat)⟩

/-- `getAuthHeader` of client.ts: build the Authorization header value. -/
def getAuthHeader (config : Config) (st : ClientState)
    (loginRes : Except SkylightError LoginResult) :
    ClientState × Except SkylightError String :=
  match getCredentials config st loginRes with
  | (st', .error e) => (st', .error e)
  | (st', .ok creds) =>
    if usesEmailAuth config = true ∧ truthy creds.2 = true then
      (st', .ok ("Basic " ++ base64Encode (creds.2.getD "" ++ ":" ++ creds.1)))
    else if config.authType = .basic then
      (st', .ok ("Basic " ++ creds.1))
    else
      (st', .ok ("Bearer " ++ creds.1))

/-- A query-parameter value (`string | boolean | number`; `undefined` is the
surrounding `Option`). -/
inductive ParamValue where
  | str (s : String)
  | bool (b : Bool)
  | num (n : Int)
deriving DecidableEq, Repr

/-- `String(value)` for a parameter value. -/
def paramString : ParamValue → String
  | .str s => s
  | .bool b => if b then "true" else "false"
  | .num n => toString n

/-- `URLSearchParams.set`: replace the first entry with the key (dropping any
later duplicates), else append. -/
def searchParamsSet : List (String × String) → String → String → List (String × String)
  | [], k, v => [(k, v)]
  | (k', v') :: rest, k, v =>
    if k' = k then (k, v) :: rest.filter (fun p => ¬p.1 = k)
    else (k', v') :: searchParamsSet rest k v

/-- `buildUrl` of client.ts, reduced to its observable content: the endpoint
path together with the ordered query-parameter list (percent-encoding of the
serialized URL is not modelled). -/
def buildUrl (endpoint : String)
    (params : Option (List (String × Option ParamValue))) :
    String × List (String × String) :=
  (endpoint,
    match params with
    | none => []
    | some ps =>
      ps.foldl
        (fun q kv =>
          match kv.2 with
          | none => q
          | some v => searchParamsSet q kv.1 (paramString v)) [])

/-- An HTTP response as the client observes it: status, the `Retry-After`
header, and the body text (`response.json()` is the parse of the body, left
abstract; `body` stands for the payload). -/
structure Response where
  status : Nat
  retryAfterHeader : Option String
  body : String
deriving DecidableEq, Repr

/-- `Response.ok` of the fetch API: status in the range 200-299. -/
def responseOk (status : Nat) : Bool :=
  200 ≤ status && status ≤ 299

/-- `parseInt(s, 10)`: optional sign, then leading decimal digits; `none`
models `NaN`. -/
def jsParseInt (s : String) : Option Int :=
  let l := s.data.dropWhile isWsChar
  let sgn : Int × List Char :=
    match l with
    | '-' :: r => (-1, r)
    | '+' :: r => (1, r)
    | r => (1, r)
  let ds := (spanAux isDigitChar sgn.2).1
  if ds.length = 0 then none else some (sgn.1 * (natOfDigits ds : Int))

/-- The delegated-login 401 message of `handleResponseError` (hints that the
frame/household identifier may be wrong). -/
def frameIdHintMessage : String :=
  "API request returned 401. This may indicate your frame ID is incorrect or doesn't belong to this account. " ++
    "Please verify your SKYLIGHT_FRAME_ID environment variable."

/-- `handleResponseError` of client.ts: classify a non-ok response, clearing
the cached credential on 401.  Returns the updated state and the thrown
error. -/
def handleResponseError (config : Config) (st : ClientState) (resp : Response) :
    ClientState × SkylightError :=
  if resp.status = 401 then
    let st' := { st with resolvedToken := none, resolvedUserId := none }
    if usesEmailAuth config = true then
      (st', authenticationError frameIdHintMessage)
    else (st', authenticationError)
  else if resp.status = 404 then (st, notFoundError "Resource")
  else if resp.status = 429 then
    (st, rateLimitError (resp.retryAfterHeader.map jsParseInt |>.join))
  else
    let msg := "HTTP " ++ toString resp.status ++
      (if resp.body = "" then "" else ": " ++ ⟨resp.body.data.take 200⟩)
    (st, skylightError msg "HTTP_ERROR" (some resp.status) (decide (500 ≤ resp.status)))

/-- The outcome of one `request` dispatch. -/
inductive DispatchResult where
  | ok (body : String)
  | okEmpty
  | error (e : SkylightError)
deriving DecidableEq, Repr

/-- `request` of client.ts (the dispatcher).  `loginRes b` is the login
exchange outcome for the attempt with retry flag `b`; `fetch b` is the HTTP
response for that attempt.  Returns the final client state, the outcome, and
the trace of retry flags of the attempts that actually reached the network. -/
def request (config : Config) (st : ClientState)
    (loginRes : Bool → Except SkylightError LoginResult)
    (fetch : Bool → Response) (isRetry : Bool) :
    ClientState × DispatchResult × List Bool :=
  match getAuthHeader config st (loginRes isRetry) with
  | (st1, .error e) => (st1, .error e, [])
  | (st1, .ok _header) =>
    let resp := fetch isRetry
    if responseOk resp.status = false then
      if h : resp.status = 401 ∧ usesEmailAuth config = true ∧ isRetry = false then
        let st2 := { st1 with resolvedToken := none, resolvedUserId := none }
        let rec_ := request config st2 loginRes fetch true
        (rec_.1, rec_.2.1, isRetry :: rec_.2.2)
      else
        let he := handleResponseError config st1 resp
        (he.1, .error he.2, [isRetry])
    else if resp.status = 304 then (st1, .okEmpty, [isRetry])
    else (st1, .ok resp.body, [isRetry])
termination_by (if isRetry then 0 else 1)
decreasing_by simp [h.2.2]

/-- The query parameters built by `getCalendarEvents` of calendar.ts
(`none` when `addDays` throws on an unparseable end date).  `clientTimezone`
is `client.timezone`. -/
def getCalendarEventsParams (dateMin dateMax : String)
    (timezone : Option String) (includeOpt : Option String)
    (clientTimezone : String) : Option (List (String × Option ParamValue)) :=
  (addDays dateMax 1).map fun adjustedDateMax =>
    [("date_min", some (.str dateMin)),
     ("date_max", some (.str adjustedDateMax)),
     ("timezone", some (.str (timezone.getD clientTimezone))),
     ("include", includeOpt.map .str)]

/-! ## Concrete fixtures used by witnesses and counterexamples -/

/-- A delegated-login (email/password) configuration. -/
def cfgEmail : Config := ⟨some "a@b.c", some "pw", none, .bearer, "f1", "tz1"⟩

/-- A direct-token configuration with the `basic` header scheme. -/
def cfgTokenBasic : Config := ⟨none, none, some "tok123", .basic, "f1", "tz1"⟩

/-- A direct-token configuration with the `bearer` header scheme. -/
def cfgTokenBearer : Config := ⟨none, none, some "tok123", .bearer, "f1", "tz1"⟩

/-- A client state holding a cached credential. -/
def stCached : ClientState := ⟨some "tok", some "u", none⟩

/-- The empty client state. -/
def stEmpty : ClientState := ⟨none, none, none⟩

/-- A login oracle that succeeds with a fresh token on every attempt. -/
def loginFresh : Bool → Except SkylightError LoginResult :=
  fun _ => .ok ⟨"new", "u2", "a@b.c", "plus"⟩

/-- A fetch oracle answering 401 on every attempt. -/
def fetchAlways401 : Bool → Response := fun _ => ⟨401, none, ""⟩

/-- A fetch oracle answering 401 first, then 200 on the retry. -/
def fetch401Then200 : Bool → Response :=
  fun b => if b then ⟨200, none, "BODY"⟩ else ⟨401, none, ""⟩

/-- A fetch oracle answering 304 Not Modified. -/
def fetchAlways304 : Bool → Response := fun _ => ⟨304, none, ""⟩

/-- A fetch oracle answering 200 with a body. -/
def fetchAlways200 : Bool → Response := fun _ => ⟨200, none, "BODY"⟩

/-! ## Concurrency model of `getCredentials` (client.ts)

JavaScript's event loop runs each `async` body synchronously between `await`
points.  `getCredentials` has exactly one suspension (awaiting the shared
`loginPromise`), so each caller is a two-step machine: its synchronous prefix
(cache check, mode check, promise check, possibly starting the login) and its
resumption after the promise settles.  The network settling the login is a
separate event.  A scheduler chooses an arbitrary interleaving of these
events; `o` is the outcome the single login exchange would produce. -/

/-- The outcome of a login exchange. -/
inductive LoginOutcome where
  | ok (token userId subscriptionStatus : String)
  | err (e : SkylightError)
deriving DecidableEq, Repr

/-- The credential-resolution result a caller observes for an outcome. -/
def outcomeResult : LoginOutcome → Except SkylightError (String × Option String)
  | .ok t u _ => .ok (t, some u)
  | .err e => .error e

instance : DecidableEq (Except SkylightError (String × Option String)) :=
  fun a b =>
    match a, b with
    | .error x, .error y =>
      if h : x = y then .isTrue (by rw [h]) else .isFalse (by simp [h])
    | .ok x, .ok y =>
      if h : x = y then .isTrue (by rw [h]) else .isFalse (by simp [h])
    | .error _, .ok _ => .isFalse (by simp)
    | .ok _, .error _ => .isFalse (by simp)

/-- Program counter of one `getCredentials` caller. -/
inductive CallerPC where
  | start
  | awaitOwner
  | awaitShared
  | done (r : Except SkylightError (String × Option String))
deriving DecidableEq, Repr

/-- Shared state of the client plus the callers.  `loginActive` is
`loginPromise !== null`; `loginOutcome` is `some` once the in-flight login
has settled; `loginsStarted` counts login exchanges begun and
`loginsInFlight` those begun but not yet settled. -/
structure PoolState where
  resolvedToken : Option String
  resolvedUserId : Option String
  loginActive : Bool
  loginOutcome : Option LoginOutcome
  pcs : List CallerPC
  loginsStarted : Nat
  loginsInFlight : Nat
deriving DecidableEq, Repr

/-- Scheduler events: caller `i` takes its enabled step, or the network
settles the in-flight login. -/
inductive Ev where
  | run (i : Nat)
  | resolve
deriving DecidableEq, Repr

/-- One step of the interleaving semantics (`none` when the event is not
enabled).  The `.start` step is the synchronous prefix of `getCredentials`;
`.awaitOwner` is the owning caller's resumption (caches the credential,
clears `loginPromise` in its `finally`); `.awaitShared` is a waiting
caller's resumption. -/
def step (config : Config) (o : LoginOutcome) (s : PoolState) : Ev → Option PoolState
  | .resolve =>
    if s.loginActive = true ∧ s.loginOutcome = none then
      some { s with loginOutcome := some o, loginsInFlight := s.loginsInFlight - 1 }
    else none
  | .run i =>
    match s.pcs.get? i with
    | none => none
    | some .start =>
      match s.resolvedToken with
      | some t => some { s with pcs := s.pcs.set i (.done (.ok (t, s.resolvedUserId))) }
      | none =>
        if usesEmailAuth config = false then
          some { s with pcs := s.pcs.set i (.done (.ok (config.token.getD "", none))) }
        else if s.loginActive = true then
          some { s with pcs := s.pcs.set i .awaitShared }
        else
          some { s with
                  loginActive := true
                  loginOutcome := none
                  loginsStarted := s.loginsStarted + 1
                  loginsInFlight := s.loginsInFlight + 1
                  pcs := s.pcs.set i .awaitOwner }
    | some .awaitOwner =>
      match s.loginOutcome with
      | none => none
      | some (.ok t u _) =>
        some { s with
                resolvedToken := some t
                resolvedUserId := some u
                loginActive := false
                pcs := s.pcs.set i (.done (.ok (t, some u))) }
      | some (.err e) =>
        some { s with
                loginActive := false
                pcs := s.pcs.set i (.done (.error e)) }
    | some .awaitShared =>
      match s.loginOutcome with
      | none => none
      | some o' => some { s with pcs := s.pcs.set i (.done (outcomeResult o')) }
    | some (.done _) => none

/-- Run a trace of scheduler events (fails when an event is not enabled). -/
def runTrace (config : Config) (o : LoginOutcome) :
    PoolState → List Ev → Option PoolState
  | s, [] => some s
  | s, e :: es =>
    match step config o s e with
    | none => none
    | some s' => runTrace config o s' es

/-- The initial state: `n` callers about to request credentials, nothing
cached, no login in flight. -/
def initPool (n : Nat) : PoolState :=
  ⟨none, none, false, none, List.replicate n .start, 0, 0⟩

/-- The at-most-one-login-in-flight invariant. -/
def poolInv1 (s : PoolState) : Prop :=
  s.loginsInFlight = if s.loginActive = true ∧ s.loginOutcome = none then 1 else 0

/-- Invariant of the phase in which callers run their synchronous prefixes
(no resolve event yet). -/
def poolPhase1 (n : Nat) (s : PoolState) : Prop :=
  s.resolvedToken = none ∧ s.loginOutcome = none ∧ s.pcs.length = n ∧
    ((s.loginActive = false ∧ s.loginsStarted = 0 ∧ s.loginsInFlight = 0 ∧
        ∀ pc ∈ s.pcs, pc = .start) ∨
     (s.loginActive = true ∧ s.loginsStarted = 1 ∧ s.loginsInFlight = 1 ∧
        ∀ pc ∈ s.pcs, pc = .start ∨ pc = .awaitOwner ∨ pc = .awaitShared))

/-- Invariant of the phase after all synchronous prefixes have run. -/
def poolPhase2 (o : LoginOutcome) (s : PoolState) : Prop :=
  s.loginsStarted = 1 ∧ (s.loginOutcome = none ∨ s.loginOutcome = some o) ∧
    ∀ pc ∈ s.pcs,
      pc = .awaitOwner ∨ pc = .awaitShared ∨ pc = .done (outcomeResult o)

/-- The login outcome used by the concurrency witness. -/
def loginOutcomeW : LoginOutcome := .ok "t1" "u1" "plus"

/-- Witness trace, phase one: both callers run their synchronous prefixes. -/
def es1W : List Ev := [.run 0, .run 1]

/-- Witness trace, phase two: the login settles, then both callers resume. -/
def es2W : List Ev := [.resolve, .run 1, .run 0]

/-- The state reached by the witness after phase one. -/
def poolMidW : PoolState :=
  ⟨none, none, true, none, [.awaitOwner, .awaitShared], 1, 1⟩

/-- The state reached by the witness after phase two. -/
def poolFinW : PoolState :=
  ⟨some "t1", some "u1", false, some loginOutcomeW,
    [.done (.ok ("t1", some "u1")), .done (.ok ("t1", some "u1"))], 1, 0⟩

/-! ## Theorems -/

theorem charToLower_digit (c : Char) (h : isDigitChar c = true) :
    charToLower c = c := by
  unfold charToLower
  rw [if_neg]
  unfold isDigitChar at h
  intro hc
  simp at h
  omega

theorem charToLower_dash : charToLower '-' = '-' := by decide

theorem ws_of_digit (c : Char) (h : isDigitChar c = true) : isWsChar c = false := by
  unfold isDigitChar at h
  unfold isWsChar
  simp at h ⊢
  omega

theorem string_ne_of_lengths {s t : String} (h : s.length ≠ t.length) : s ≠ t :=
  fun he => h (he ▸ rfl)

theorem jsIndexOf_eq_neg_one (ws : List String) (x : String)
    (h : ∀ w ∈ ws, w ≠ x) : jsIndexOf ws x = -1 := by
  induction ws with
  | nil => rfl
  | cons a as ih =>
    have ha : a ≠ x := h a (List.mem_cons_self a as)
    rw [jsIndexOf, if_neg ha, ih fun w hw => h w (List.mem_cons_of_mem _ hw)]
    simp

theorem jsIndexOf_mem (ws : List String) (x : String)
    (h : jsIndexOf ws x ≠ -1) : x ∈ ws := by
  induction ws with
  | nil => simp [jsIndexOf] at h
  | cons a as ih =>
    rw [jsIndexOf] at h
    by_cases ha : a = x
    · exact ha ▸ List.mem_cons_self a as
    · rw [if_neg ha] at h
      refine List.mem_cons_of_mem a (ih ?_)
      intro hcon
      apply h
      rw [hcon]
      decide

theorem jsIndexOf_bounds (ws : List String) (x : String)
    (h : jsIndexOf ws x ≠ -1) :
    0 ≤ jsIndexOf ws x ∧ jsIndexOf ws x < ws.length := by
  induction ws with
  | nil => simp [jsIndexOf] at h
  | cons a as ih =>
    rw [jsIndexOf] at h ⊢
    by_cases ha : a = x
    · simp [ha]
    · rw [if_neg ha] at h ⊢
      by_cases hr : jsIndexOf as x = -1
      · rw [hr] at h
        simp at h
      · have := ih hr
        rw [if_neg hr]
        simp
        omega

theorem dropWhile_eq_self_of_head (p : Char → Bool) (l : List Char)
    (h : ∀ c, l.head? = some c → p c = false) : l.dropWhile p = l := by
  cases l with
  | nil => rfl
  | cons a t => simp [List.dropWhile_cons, h a rfl]

theorem head_dropWhile_false (p : Char → Bool) (l : List Char) :
    ∀ c, (l.dropWhile p).head? = some c → p c = false := by
  induction l with
  | nil => intro c hc; simp at hc
  | cons a t ih =>
    intro c hc
    rw [List.dropWhile_cons] at hc
    by_cases hp : p a
    · rw [if_pos hp] at hc
      exact ih c hc
    · rw [if_neg hp] at hc
      simp at hc
      subst hc
      simpa using hp

theorem dropWhile_idem (p : Char → Bool) (l : List Char) :
    (l.dropWhile p).dropWhile p = l.dropWhile p :=
  dropWhile_eq_self_of_head p _ (head_dropWhile_false p l)

theorem mem_of_head?_char {l : List Char} {c : Char} (h : l.head? = some c) :
    c ∈ l := by
  cases l with
  | nil => simp at h
  | cons a t =>
    simp at h
    rw [← h]
    exact List.mem_cons_self a t

theorem mem_of_getLast?_char {l : List Char} {c : Char} (h : l.getLast? = some c) :
    c ∈ l := by
  rw [← List.head?_reverse] at h
  have := mem_of_head?_char h
  simpa using this

theorem trimRightWs_eq_self_of_last (l : List Char)
    (h : ∀ c, l.getLast? = some c → isWsChar c = false) : trimRightWs l = l := by
  unfold trimRightWs
  rw [dropWhile_eq_self_of_head isWsChar l.reverse fun c hc =>
    h c (by rwa [List.head?_reverse] at hc)]
  exact l.reverse_reverse

theorem jsTrimList_eq_self (l : List Char)
    (h : ∀ c ∈ l, isWsChar c = false) : jsTrimList l = l := by
  unfold jsTrimList
  rw [dropWhile_eq_self_of_head isWsChar l fun c hc => h c (mem_of_head?_char hc)]
  exact trimRightWs_eq_self_of_last l fun c hc => h c (mem_of_getLast?_char hc)

theorem trimRightWs_idem (l : List Char) :
    trimRightWs (trimRightWs l) = trimRightWs l := by
  unfold trimRightWs
  rw [List.reverse_reverse, dropWhile_idem]

theorem dropWhile_suffix_decomp (p : Char → Bool) (l : List Char) :
    ∃ pre, pre ++ l.dropWhile p = l := by
  induction l with
  | nil => exact ⟨[], rfl⟩
  | cons a t ih =>
    by_cases hp : p a
    · rcases ih with ⟨pre, hpre⟩
      exact ⟨a :: pre, by rw [List.dropWhile_cons, if_pos hp, List.cons_append, hpre]⟩
    · exact ⟨[], by rw [List.dropWhile_cons, if_neg hp, List.nil_append]⟩

theorem head_trimRightWs (l : List Char) (c : Char)
    (h : (trimRightWs l).head? = some c) : l.head? = some c := by
  unfold trimRightWs at h
  rcases hd : l.reverse.dropWhile isWsChar with _ | ⟨b, t⟩
  · rw [hd] at h
    simp at h
  · rw [hd] at h
    obtain ⟨pre, hpre⟩ := dropWhile_suffix_decomp isWsChar l.reverse
    rw [hd] at hpre
    have hl : l = t.reverse ++ b :: pre.reverse := by
      have h2 := congrArg List.reverse hpre
      simp at h2
      exact h2.symm
    simp only [List.reverse_cons] at h
    rw [hl]
    cases hrev : t.reverse with
    | nil =>
      rw [hrev] at h
      simpa using h
    | cons x xs =>
      rw [hrev] at h
      simpa using h

theorem jsTrimList_idem (l : List Char) :
    jsTrimList (jsTrimList l) = jsTrimList l := by
  unfold jsTrimList
  rw [dropWhile_eq_self_of_head isWsChar (trimRightWs (l.dropWhile isWsChar))
    fun c hc => head_dropWhile_false isWsChar l c (head_trimRightWs _ c hc)]
  exact trimRightWs_idem _

theorem step_poolInv1 (config : Config) (o : LoginOutcome) (s s' : PoolState)
    (e : Ev) (hI : poolInv1 s) (h : step config o s e = some s') : poolInv1 s' := by
  unfold poolInv1 at hI ⊢
  cases e <;> simp only [step] at h
  case resolve =>
    split at h
    · rename_i hc
      simp at h
      subst h
      simp [hc.1, hc.2] at hI ⊢
      omega
    · simp at h
  case run i =>
    split at h
    · simp at h
    · split at h
      · simp at h
        subst h
        simpa using hI
      · split at h
        · simp at h
          subst h
          simpa using hI
        · split at h
          · simp at h
            subst h
            simpa using hI
          · rename_i hmode hact
            simp at h
            subst h
            simp [hact] at hI ⊢
            omega
    · split at h
      · simp at h
      · rename_i t u sub hout
        simp at h
        subst h
        simp [hout] at hI ⊢
        omega
      · rename_i e' hout
        simp at h
        subst h
        simp [hout] at hI ⊢
        omega
    · split at h
      · simp at h
      · rename_i o' hout
        simp at h
        subst h
        simp [hout] at hI ⊢
        omega
    · simp at h

theorem step_run_poolPhase1 (config : Config) (o : LoginOutcome)
    (s s' : PoolState) (n i : Nat) (hm : usesEmailAuth config = true)
    (hQ : poolPhase1 n s) (h : step config o s (.run i) = some s') :
    poolPhase1 n s' := by
  obtain ⟨htok, hout, hlen, hcase⟩ := hQ
  simp only [step] at h
  split at h
  · simp at h
  · split at h
    · rename_i t htok2
      rw [htok] at htok2
      simp at htok2
    · split at h
      · rename_i hmode
        rw [hm] at hmode
        simp at hmode
      · split at h
        · rename_i hmode hact
          simp at h
          subst h
          refine ⟨htok, hout, by simpa using hlen, ?_⟩
          rcases hcase with ⟨hf, _⟩ | ⟨ha, hst, hif, hpc⟩
          · rw [hf] at hact
            simp at hact
          · right
            refine ⟨ha, hst, hif, ?_⟩
            intro pc hpc'
            rcases List.mem_or_eq_of_mem_set hpc' with hmem | rfl
            · exact hpc pc hmem
            · right
              right
              rfl
        · rename_i hmode hact
          simp at h
          subst h
          rcases hcase with ⟨hf, hst, hif, hpc⟩ | ⟨ha, _⟩
          · refine ⟨htok, rfl, by simpa using hlen, ?_⟩
            right
            refine ⟨rfl, by simp [hst], by simp [hif], ?_⟩
            intro pc hpc'
            rcases List.mem_or_eq_of_mem_set hpc' with hmem | rfl
            · exact Or.inl (hpc pc hmem)
            · right
              left
              rfl
          · rw [ha] at hact
            simp at hact
  · split at h
    · simp at h
    · rename_i t u sub hout2
      rw [hout] at hout2
      simp at hout2
    · rename_i e' hout2
      rw [hout] at hout2
      simp at hout2
  · split at h
    · simp at h
    · rename_i o' hout2
      rw [hout] at hout2
      simp at hout2
  · simp at h

theorem step_poolPhase2 (config : Config) (o : LoginOutcome) (s s' : PoolState)
    (e : Ev) (hR : poolPhase2 o s) (h : step config o s e = some s') :
    poolPhase2 o s' := by
  obtain ⟨hst, hout, hpc⟩ := hR
  cases e <;> simp only [step] at h
  case resolve =>
    split at h
    · simp at h
      subst h
      exact ⟨hst, Or.inr rfl, fun pc hm => hpc pc hm⟩
    · simp at h
  case run i =>
    split at h
    · simp at h
    · rename_i hget
      have hmem := hpc _ (List.get?_mem hget)
      simp at hmem
    · split at h
      · simp at h
      · rename_i t u sub hout2
        simp at h
        subst h
        rcases hout with h0 | h0
        · rw [h0] at hout2
          simp at hout2
        · rw [h0] at hout2
          simp at hout2
          refine ⟨hst, Or.inr (by simpa using h0), ?_⟩
          intro pc hm
          rcases List.mem_or_eq_of_mem_set hm with hmem | rfl
          · exact hpc pc hmem
          · right
            right
            rw [hout2]
            rfl
      · rename_i e' hout2
        simp at h
        subst h
        rcases hout with h0 | h0
        · rw [h0] at hout2
          simp at hout2
        · rw [h0] at hout2
          simp at hout2
          refine ⟨hst, Or.inr (by simpa using h0), ?_⟩
          intro pc hm
          rcases List.mem_or_eq_of_mem_set hm with hmem | rfl
          · exact hpc pc hmem
          · right
            right
            rw [hout2]
            rfl
    · split at h
      · simp at h
      · rename_i o' hout2
        simp at h
        subst h
        rcases hout with h0 | h0
        · rw [h0] at hout2
          simp at hout2
        · rw [h0] at hout2
          simp at hout2
          refine ⟨hst, Or.inr (by simpa using h0), ?_⟩
          intro pc hm
          rcases List.mem_or_eq_of_mem_set hm with hmem | rfl
          · exact hpc pc hmem
          · right
            right
            rw [← hout2]
    · simp at h

theorem runTrace_preserve (config : Config) (o : LoginOutcome)
    {P : PoolState → Prop}
    (hstep : ∀ s s' e, P s → step config o s e = some s' → P s') :
    ∀ es s s', P s → runTrace config o s es = some s' → P s' := by
  intro es
  induction es with
  | nil =>
    intro s s' hP h
    simp [runTrace] at h
    rwa [← h]
  | cons e es ih =>
    intro s s' hP h
    simp only [runTrace] at h
    rcases hstp : step config o s e with _ | s1
    · rw [hstp] at h
      simp at h
    · rw [hstp] at h
      exact ih s1 s' (hstep s s1 e hP hstp) h

theorem runTrace_preserve_run (config : Config) (o : LoginOutcome)
    {P : PoolState → Prop}
    (hstep : ∀ s s' i, P s → step config o s (.run i) = some s' → P s') :
    ∀ es, Ev.resolve ∉ es → ∀ s s', P s → runTrace config o s es = some s' → P s' := by
  intro es
  induction es with
  | nil =>
    intro _ s s' hP h
    simp [runTrace] at h
    rwa [← h]
  | cons e es ih =>
    intro hnr s s' hP h
    simp only [runTrace] at h
    rcases hstp : step config o s e with _ | s1
    · rw [hstp] at h
      simp at h
    · rw [hstp] at h
      cases e with
      | resolve => exact absurd (List.mem_cons_self _ _) hnr
      | run i =>
        exact ih (fun hc => hnr (List.mem_cons_of_mem _ hc)) s1 s'
          (hstep s s1 i hP hstp) h

theorem isDigitChar_digitChar (k : Nat) : isDigitChar (digitChar k) = true := by
  unfold digitChar
  have h10 : k % 10 = 0 ∨ k % 10 = 1 ∨ k % 10 = 2 ∨ k % 10 = 3 ∨ k % 10 = 4 ∨
      k % 10 = 5 ∨ k % 10 = 6 ∨ k % 10 = 7 ∨ k % 10 = 8 ∨ k % 10 = 9 := by omega
  rcases h10 with h | h | h | h | h | h | h | h | h | h <;> rw [h] <;> decide

theorem natToDigitsAux_digits (fuel : Nat) :
    ∀ n, ∀ c ∈ natToDigitsAux fuel n, isDigitChar c = true := by
  induction fuel with
  | zero => intro n c hc; simp [natToDigitsAux] at hc
  | succ f ih =>
    intro n c hc
    rw [natToDigitsAux] at hc
    by_cases hn : n < 10
    · rw [if_pos hn] at hc
      simp at hc
      rw [hc]
      exact isDigitChar_digitChar n
    · rw [if_neg hn] at hc
      rcases List.mem_append.mp hc with hl | hr
      · exact ih (n / 10) c hl
      · simp at hr
        rw [hr]
        exact isDigitChar_digitChar n

theorem natToDigits_digits (n : Nat) :
    ∀ c ∈ natToDigits n, isDigitChar c = true :=
  natToDigitsAux_digits (n + 1) n

theorem padStart2_shape (l : List Char) :
    ∃ x y t, padStart2 l = x :: y :: t := by
  match l with
  | [] => exact ⟨'0', '0', [], rfl⟩
  | [a] => exact ⟨'0', a, [], rfl⟩
  | a :: b :: t => exact ⟨a, b, t, rfl⟩

theorem padStart2_all_digits (l : List Char)
    (h : ∀ c ∈ l, isDigitChar c = true) :
    ∀ c ∈ padStart2 l, isDigitChar c = true := by
  match l with
  | [] => intro c hc; simp [padStart2] at hc; rw [hc]; decide
  | [a] =>
    intro c hc
    simp [padStart2] at hc
    rcases hc with rfl | rfl
    · decide
    · exact h c (by simp)
  | a :: b :: t => exact h

theorem spanAux_digits_append (ds rest : List Char)
    (h : ∀ c ∈ ds, isDigitChar c = true) :
    spanAux isDigitChar (ds ++ ':' :: rest) = (ds, ':' :: rest) := by
  induction ds with
  | nil => simp [spanAux, show isDigitChar ':' = false from by decide]
  | cons a t ih =>
    have ha := h a (List.mem_cons_self a t)
    simp [spanAux, ha, ih fun c hc => h c (List.mem_cons_of_mem _ hc)]

theorem spanAux_fst_all (p : Char → Bool) (l : List Char) :
    ∀ c ∈ (spanAux p l).1, p c = true := by
  induction l with
  | nil => intro c hc; simp [spanAux] at hc
  | cons a t ih =>
    intro c hc
    rw [spanAux] at hc
    by_cases hp : p a
    · rw [if_pos hp] at hc
      simp at hc
      rcases hc with rfl | hc'
      · exact hp
      · exact ih c hc'
    · rw [if_neg hp] at hc
      simp at hc

theorem matchHMCore_some {a b hs ms : List Char}
    (h : matchHMCore a b = some (hs, ms)) :
    hs = a ∧ 1 ≤ a.length ∧ a.length ≤ 2 ∧ ms.length = 2 ∧
    (∀ c ∈ ms, isDigitChar c = true) := by
  unfold matchHMCore at h
  split at h
  · rename_i hcond
    split at h
    · rename_i ms' heq
      split at h
      · rename_i hms
        simp at h
        obtain ⟨h1, h2⟩ := h
        subst h1
        subst h2
        exact ⟨rfl, hcond.1, hcond.2, hms.1,
          fun c hc => List.all_eq_true.mp hms.2 c hc⟩
      · simp at h
    · simp at h
  · simp at h

theorem matchHM_some {l hs ms : List Char} (h : matchHM l = some (hs, ms)) :
    (∀ c ∈ hs, isDigitChar c = true) ∧ 1 ≤ hs.length ∧ hs.length ≤ 2 ∧
    ms.length = 2 ∧ (∀ c ∈ ms, isDigitChar c = true) := by
  unfold matchHM at h
  obtain ⟨h1, h2, h3, h4, h5⟩ := matchHMCore_some h
  subst h1
  exact ⟨fun c hc => spanAux_fst_all isDigitChar l c hc, h2, h3, h4, h5⟩

theorem matchHMPeriodCore_some {a b hs ms : List Char} {pm : Bool}
    (h : matchHMPeriodCore a b = some (hs, ms, pm)) :
    ms.length = 2 ∧ (∀ c ∈ ms, isDigitChar c = true) := by
  unfold matchHMPeriodCore at h
  split at h
  · rename_i hcond
    split at h
    · rename_i r2 heq
      split at h
      · rename_i hms
        split at h
        · rename_i a' m' heq2
          split at h
          · simp at h
            obtain ⟨h1, h2, h3⟩ := h
            subst h2
            exact ⟨hms.1, fun c hc => List.all_eq_true.mp hms.2 c hc⟩
          · simp at h
        · simp at h
      · simp at h
    · simp at h
  · simp at h

theorem matchHMPeriod_some {l hs ms : List Char} {pm : Bool}
    (h : matchHMPeriod l = some (hs, ms, pm)) :
    ms.length = 2 ∧ (∀ c ∈ ms, isDigitChar c = true) := by
  unfold matchHMPeriod at h
  exact matchHMPeriodCore_some h

theorem parseTime_fix_two (x y m1 m2 : Char)
    (hx : isDigitChar x = true) (hy : isDigitChar y = true)
    (hm1 : isDigitChar m1 = true) (hm2 : isDigitChar m2 = true) :
    parseTime ⟨[x, y, ':', m1, m2]⟩ = ⟨[x, y, ':', m1, m2]⟩ := by
  have htr : jsTrimList [x, y, ':', m1, m2] = [x, y, ':', m1, m2] :=
    jsTrimList_eq_self _ (by
      intro cc hcc
      simp at hcc
      rcases hcc with rfl | rfl | rfl | rfl | rfl <;>
        first
        | exact ws_of_digit _ hx
        | exact ws_of_digit _ hy
        | exact ws_of_digit _ hm1
        | exact ws_of_digit _ hm2
        | decide)
  have hspan : spanAux isDigitChar [x, y, ':', m1, m2] = ([x, y], ':' :: [m1, m2]) :=
    spanAux_digits_append [x, y] [m1, m2] (by
      intro cc hcc
      simp at hcc
      rcases hcc with rfl | rfl
      · exact hx
      · exact hy)
  have hmhm : matchHM [x, y, ':', m1, m2] = some ([x, y], [m1, m2]) := by
    unfold matchHM
    rw [hspan]
    simp [matchHMCore, hm1, hm2]
  simp [parseTime, htr, hmhm, padStart2]

theorem parseTime_fix_long (ds : List Char) (m1 m2 : Char)
    (hds : ∀ c ∈ ds, isDigitChar c = true) (hlen : 3 ≤ ds.length)
    (hm1 : isDigitChar m1 = true) (hm2 : isDigitChar m2 = true) :
    parseTime ⟨ds ++ ':' :: [m1, m2]⟩ = ⟨ds ++ ':' :: [m1, m2]⟩ := by
  have htr : jsTrimList (ds ++ ':' :: [m1, m2]) = ds ++ ':' :: [m1, m2] :=
    jsTrimList_eq_self _ (by
      intro cc hcc
      rcases List.mem_append.mp hcc with hl | hr
      · exact ws_of_digit _ (hds cc hl)
      · simp at hr
        rcases hr with rfl | rfl | rfl
        · decide
        · exact ws_of_digit _ hm1
        · exact ws_of_digit _ hm2)
  have hspan : spanAux isDigitChar (ds ++ ':' :: [m1, m2]) = (ds, ':' :: [m1, m2]) :=
    spanAux_digits_append ds [m1, m2] hds
  have hmhm : matchHM (ds ++ ':' :: [m1, m2]) = none := by
    unfold matchHM
    rw [hspan]
    dsimp only
    unfold matchHMCore
    rw [if_neg (by omega)]
  have hmp : matchHMPeriod (ds ++ ':' :: [m1, m2]) = none := by
    unfold matchHMPeriod
    rw [hspan]
    dsimp only
    unfold matchHMPeriodCore
    rw [if_neg (by omega)]
  simp [parseTime, htr, hmhm, hmp]

theorem parseTime_fix_pad (N : Nat) (m1 m2 : Char)
    (hm1 : isDigitChar m1 = true) (hm2 : isDigitChar m2 = true) :
    parseTime ⟨padStart2 (natToDigits N) ++ ':' :: [m1, m2]⟩ =
      ⟨padStart2 (natToDigits N) ++ ':' :: [m1, m2]⟩ := by
  have hdigits : ∀ c ∈ padStart2 (natToDigits N), isDigitChar c = true :=
    padStart2_all_digits _ (natToDigits_digits N)
  obtain ⟨x, y, t, hshape⟩ := padStart2_shape (natToDigits N)
  cases t with
  | nil =>
    rw [hshape]
    exact parseTime_fix_two x y m1 m2
      (hdigits x (by rw [hshape]; exact List.mem_cons_self _ _))
      (hdigits y (by rw [hshape]; simp))
      hm1 hm2
  | cons u us =>
    rw [hshape]
    refine parseTime_fix_long (x :: y :: u :: us) m1 m2 ?_ (by simp) hm1 hm2
    intro c hc
    exact hdigits c (by rw [hshape]; exact hc)

/-- C10: `parseTime` is idempotent — every output (from the zero-padded
24-hour branch, the 12-hour AM/PM conversion branch, or the trimmed
passthrough branch) is a fixed point of `parseTime`. -/
theorem c10_parseTime_idempotent (s : String) :
    parseTime (parseTime s) = parseTime s := by
  rcases hm1 : matchHM (jsTrimList s.data) with _ | ⟨hs, ms⟩
  · rcases hm2 : matchHMPeriod (jsTrimList s.data) with _ | ⟨⟨hs, ms, pm⟩⟩
    · have hout : parseTime s = ⟨jsTrimList s.data⟩ := by
        simp [parseTime, hm1, hm2]
      rw [hout]
      have ht := jsTrimList_idem s.data
      simp [parseTime, ht, hm1, hm2]
    · obtain ⟨hlen2, hdig⟩ := matchHMPeriod_some hm2
      have hout : parseTime s =
          ⟨padStart2 (natToDigits
              (if pm = true ∧ natOfDigits hs ≠ 12 then natOfDigits hs + 12
               else if pm = false ∧ natOfDigits hs = 12 then 0
               else natOfDigits hs)) ++ ':' :: ms⟩ := by
        simp [parseTime, hm1, hm2]
      rcases ms with _ | ⟨m1, _ | ⟨m2, _ | ⟨m3, r⟩⟩⟩
      · simp at hlen2
      · simp at hlen2
      · rw [hout]
        exact parseTime_fix_pad _ m1 m2 (hdig m1 (by simp)) (hdig m2 (by simp))
      · simp at hlen2
  · obtain ⟨hdigs, hl1, hl2, hlen2, hdig⟩ := matchHM_some hm1
    have hout : parseTime s = ⟨padStart2 hs ++ ':' :: ms⟩ := by
      simp [parseTime, hm1]
    rcases ms with _ | ⟨m1, _ | ⟨m2, _ | ⟨m3, r⟩⟩⟩
    · simp at hlen2
    · simp at hlen2
    · rcases hs with _ | ⟨u, _ | ⟨v, _ | ⟨w, r'⟩⟩⟩
      · simp at hl1
      · rw [hout]
        exact parseTime_fix_two '0' u m1 m2 (by decide) (hdigs u (by simp))
          (hdig m1 (by simp)) (hdig m2 (by simp))
      · rw [hout]
        exact parseTime_fix_two u v m1 m2 (hdigs u (by simp)) (hdigs v (by simp))
          (hdig m1 (by simp)) (hdig m2 (by simp))
      · simp at hl2
    · simp at hlen2

/-- C8: any string of the exact ISO shape `NNNN-NN-NN` is returned by
`parseDate` unchanged, for every timezone argument, every clock value, and
every behaviour of the platform's generic date parser (hence `parseDate` is
idempotent on ISO-formatted dates). -/
theorem c8_iso_passthrough (gp : String → Option Int) (today : Int)
    (tz : Option String) (input : String) (h : isIsoDateShape input = true) :
    parseDate gp today input tz = input := by
  obtain ⟨l⟩ := input
  rcases l with _ | ⟨a, _ | ⟨b, _ | ⟨c, _ | ⟨d, _ | ⟨e, _ | ⟨f, _ | ⟨g, _ | ⟨h2, _ | ⟨i, _ | ⟨j, _ | ⟨k, rest⟩⟩⟩⟩⟩⟩⟩⟩⟩⟩⟩ <;>
    simp [isIsoDateShape] at h
  obtain ⟨⟨⟨⟨⟨⟨⟨⟨⟨ha, hb⟩, hc⟩, hd⟩, he⟩, hf⟩, hg⟩, hh2⟩, hi⟩, hj⟩ := h
  subst he
  subst hh2
  have hlen10 : (String.mk [a, b, c, d, '-', f, g, '-', i, j]).length = 10 := rfl
  have hmap : jsToLower ⟨[a, b, c, d, '-', f, g, '-', i, j]⟩ =
      (⟨[a, b, c, d, '-', f, g, '-', i, j]⟩ : String) := by
    simp [jsToLower, charToLower_digit, ha, hb, hc, hd, hf, hg, hi, hj,
      charToLower_dash]
  have hws : ∀ cc ∈ [a, b, c, d, '-', f, g, '-', i, j], isWsChar cc = false := by
    intro cc hcc
    simp at hcc
    rcases hcc with rfl | rfl | rfl | rfl | rfl | rfl | rfl | rfl | rfl | rfl <;>
      first
      | exact ws_of_digit _ ha
      | exact ws_of_digit _ hb
      | exact ws_of_digit _ hc
      | exact ws_of_digit _ hd
      | exact ws_of_digit _ hf
      | exact ws_of_digit _ hg
      | exact ws_of_digit _ hi
      | exact ws_of_digit _ hj
      | decide
  have hlow : jsTrim (jsToLower ⟨[a, b, c, d, '-', f, g, '-', i, j]⟩) =
      (⟨[a, b, c, d, '-', f, g, '-', i, j]⟩ : String) := by
    rw [hmap]
    show (⟨jsTrimList [a, b, c, d, '-', f, g, '-', i, j]⟩ : String) = _
    rw [jsTrimList_eq_self _ hws]
  have hne1 : (⟨[a, b, c, d, '-', f, g, '-', i, j]⟩ : String) ≠ "today" := by
    apply string_ne_of_lengths
    rw [hlen10]
    decide
  have hne2 : (⟨[a, b, c, d, '-', f, g, '-', i, j]⟩ : String) ≠ "tomorrow" := by
    apply string_ne_of_lengths
    rw [hlen10]
    decide
  have hne3 : (⟨[a, b, c, d, '-', f, g, '-', i, j]⟩ : String) ≠ "yesterday" := by
    apply string_ne_of_lengths
    rw [hlen10]
    decide
  have hidx : jsIndexOf weekdayNames ⟨[a, b, c, d, '-', f, g, '-', i, j]⟩ = -1 := by
    apply jsIndexOf_eq_neg_one
    intro w hw
    simp [weekdayNames] at hw
    rcases hw with rfl | rfl | rfl | rfl | rfl | rfl | rfl <;>
      · apply string_ne_of_lengths
        rw [hlen10]
        decide
  have hiso : isIsoDateShape ⟨[a, b, c, d, '-', f, g, '-', i, j]⟩ = true := by
    simp [isIsoDateShape, ha, hb, hc, hd, hf, hg, hi, hj]
  simp [parseDate, hlow, hne1, hne2, hne3, hidx, hiso]

/-- C8 witness: the concrete ISO date of the spec's example round-trips. -/
theorem c8_iso_passthrough_witness :
    parseDate (fun _ => none) 0 "2025-06-15" none = "2025-06-15" :=
  c8_iso_passthrough (fun _ => none) 0 none "2025-06-15" (by decide)

/-- C6: whenever the lower-cased, trimmed input is one of the seven weekday
names, `parseDate` returns the date `today + k` for some offset `k` with
`1 ≤ k ≤ 7` (strictly in the future at the civil-day level, never today,
never more than a week ahead), and when today's weekday equals the named
weekday the offset is exactly 7. -/
theorem c6_weekday_strictly_future (gp : String → Option Int) (today : Int)
    (tz : Option String) (input : String)
    (h : jsIndexOf weekdayNames (jsTrim (jsToLower input)) ≠ -1) :
    ∃ k : Int, 1 ≤ k ∧ k ≤ 7 ∧
      parseDate gp today input tz = formatIsoDate (today + k) ∧
      ((jsGetDay today : Int) = jsIndexOf weekdayNames (jsTrim (jsToLower input)) →
        k = 7) := by
  have hb := jsIndexOf_bounds weekdayNames (jsTrim (jsToLower input)) h
  have hmem := jsIndexOf_mem weekdayNames (jsTrim (jsToLower input)) h
  have hne : jsTrim (jsToLower input) ≠ "today" ∧
      jsTrim (jsToLower input) ≠ "tomorrow" ∧
      jsTrim (jsToLower input) ≠ "yesterday" := by
    simp [weekdayNames] at hmem
    rcases hmem with h' | h' | h' | h' | h' | h' | h' <;> rw [h'] <;> decide
  have hday : jsGetDay today < 7 := by
    unfold jsGetDay
    have h1 : 0 ≤ (today + 4) % 7 := Int.emod_nonneg _ (by decide)
    have h2 : (today + 4) % 7 < 7 := Int.emod_lt_of_pos _ (by decide)
    omega
  have hpd : parseDate gp today input tz =
      getDateOffset today
        (if jsIndexOf weekdayNames (jsTrim (jsToLower input)) -
            (jsGetDay today : Int) ≤ 0
         then jsIndexOf weekdayNames (jsTrim (jsToLower input)) -
            (jsGetDay today : Int) + 7
         else jsIndexOf weekdayNames (jsTrim (jsToLower input)) -
            (jsGetDay today : Int)) tz := by
    simp [parseDate, hne.1, hne.2.1, hne.2.2, h]
  refine ⟨if jsIndexOf weekdayNames (jsTrim (jsToLower input)) -
      (jsGetDay today : Int) ≤ 0
    then jsIndexOf weekdayNames (jsTrim (jsToLower input)) - (jsGetDay today : Int) + 7
    else jsIndexOf weekdayNames (jsTrim (jsToLower input)) - (jsGetDay today : Int),
    ?_, ?_, ?_, ?_⟩
  · have hlen : (weekdayNames.length : Int) = 7 := by decide
    split <;> omega
  · have hlen : (weekdayNames.length : Int) = 7 := by decide
    split <;> omega
  · rw [hpd]
    cases tz <;> rfl
  · intro heq
    rw [← heq]
    simp

/-- C6 witness: asking for "Friday" on 1970-01-01 (a Thursday) yields an
offset of one day. -/
theorem c6_weekday_strictly_future_witness :
    ∃ k : Int, 1 ≤ k ∧ k ≤ 7 ∧
      parseDate (fun _ => none) 0 "Friday" none = formatIsoDate (0 + k) ∧
      ((jsGetDay 0 : Int) = jsIndexOf weekdayNames (jsTrim (jsToLower "Friday")) →
        k = 7) :=
  c6_weekday_strictly_future (fun _ => none) 0 none "Friday" (by decide)

theorem searchParamsSet_append (acc : List (String × String)) (k v : String)
    (h : ∀ p ∈ acc, p.1 ≠ k) : searchParamsSet acc k v = acc ++ [(k, v)] := by
  induction acc with
  | nil => rfl
  | cons p rest ih =>
    have hp : p.1 ≠ k := h p (List.mem_cons_self p rest)
    obtain ⟨k', v'⟩ := p
    simp only [searchParamsSet, if_neg hp, List.cons_append]
    rw [ih fun q hq => h q (List.mem_cons_of_mem _ hq)]

theorem buildQuery_foldl (ps : List (String × Option ParamValue))
    (acc : List (String × String))
    (hnd : (ps.map Prod.fst).Nodup)
    (hdisj : ∀ p ∈ acc, ∀ q ∈ ps, p.1 ≠ q.1) :
    ps.foldl
        (fun q kv =>
          match kv.2 with
          | none => q
          | some v => searchParamsSet q kv.1 (paramString v)) acc =
      acc ++ ps.filterMap (fun kv => kv.2.map fun v => (kv.1, paramString v)) := by
  induction ps generalizing acc with
  | nil => simp
  | cons kv rest ih =>
    obtain ⟨k₀, v₀⟩ := kv
    have hnd' : (rest.map Prod.fst).Nodup := by
      simpa using hnd.of_cons
    match v₀ with
    | none =>
      simp only [List.foldl_cons, List.filterMap_cons, Option.map_none']
      exact ih acc hnd' fun p hp q hq => hdisj p hp q (List.mem_cons_of_mem _ hq)
    | some v =>
      simp only [List.foldl_cons, List.filterMap_cons, Option.map_some']
      rw [searchParamsSet_append acc k₀ (paramString v)
        (fun p hp => hdisj p hp (k₀, some v) (List.mem_cons_self _ _))]
      rw [ih (acc ++ [(k₀, paramString v)]) hnd' ?_]
      · simp
      · intro p hp q hq
        rcases List.mem_append.mp hp with hp' | hp'
        · exact hdisj p hp' q (List.mem_cons_of_mem _ hq)
        · have hpk : p = (k₀, paramString v) := by simpa using hp'
          subst hpk
          have hmemq : q.1 ∈ rest.map Prod.fst := List.mem_map_of_mem Prod.fst hq
          simp only [List.map_cons, List.nodup_cons] at hnd
          intro hcontra
          apply hnd.1
          rw [show k₀ = q.1 from hcontra]
          exact hmemq

/-- C7: for every request descriptor, the query of the built URL consists of
exactly the parameters whose values are present: a pair `(k, v)` is emitted
iff the descriptor carries `k` with a present value whose string form is `v`;
absent values are omitted entirely (so no empty-string and no "undefined"
entry arises from an absent parameter), and an absent parameter map yields an
empty query. -/
theorem c7_query_params_exactly_present (endpoint : String)
    (ps : List (String × Option ParamValue))
    (hnd : (ps.map Prod.fst).Nodup) :
    (buildUrl endpoint none).2 = [] ∧
    (∀ k v, (k, v) ∈ (buildUrl endpoint (some ps)).2 ↔
      ∃ pv, (k, some pv) ∈ ps ∧ v = paramString pv) ∧
    (∀ k, (k, none) ∈ ps → ∀ v, (k, v) ∉ (buildUrl endpoint (some ps)).2) := by
  have hq : (buildUrl endpoint (some ps)).2 =
      ps.filterMap (fun kv => kv.2.map fun v => (kv.1, paramString v)) := by
    simpa [buildUrl] using buildQuery_foldl ps [] hnd (by simp)
  refine ⟨rfl, fun k v => ?_, fun k hk v hv => ?_⟩
  · rw [hq]
    constructor
    · intro hmem
      rcases List.mem_filterMap.mp hmem with ⟨⟨k', ov⟩, hmem', heq⟩
      match ov with
      | none => simp at heq
      | some pv =>
        simp only [Option.map_some', Option.some.injEq, Prod.mk.injEq] at heq
        exact ⟨pv, by rw [← heq.1]; exact ⟨hmem', heq.2.symm⟩⟩
    · rintro ⟨pv, hmem', rfl⟩
      exact List.mem_filterMap.mpr ⟨(k, some pv), hmem', rfl⟩
  · rw [hq] at hv
    rcases List.mem_filterMap.mp hv with ⟨⟨k', ov⟩, hmem', heq⟩
    match ov with
    | none => simp at heq
    | some pv =>
      simp only [Option.map_some', Option.some.injEq, Prod.mk.injEq] at heq
      have hk' : k' = k := heq.1
      subst hk'
      have := List.inj_on_of_nodup_map hnd hk hmem' rfl
      simp at this

/-- C7 witness: a concrete descriptor with one present and one absent
parameter emits exactly the present one. -/
theorem c7_query_params_witness :
    ("a", "1") ∈ (buildUrl "/x" (some [("a", some (.str "1")), ("b", none)])).2 ∧
    ∀ v, ("b", v) ∉ (buildUrl "/x" (some [("a", some (.str "1")), ("b", none)])).2 := by
  have h := c7_query_params_exactly_present "/x" [("a", some (.str "1")), ("b", none)]
    (by decide)
  exact ⟨(h.2.1 "a" "1").mpr ⟨.str "1", by simp, rfl⟩,
    fun v => h.2.2 "b" (by simp) v⟩

/-- C2: in delegated-login mode (whether the credential is already cached or
freshly obtained by login) the Authorization header is
`Basic base64(subjectId:token)` for every configured header scheme, while in
direct-token mode it is `Basic token` verbatim under the `basic` scheme and
`Bearer token` otherwise. -/
theorem c2_authorization_header (config : Config) (st : ClientState)
    (uid tok : String) (r : LoginResult)
    (loginRes : Except SkylightError LoginResult) :
    (usesEmailAuth config = true → st.resolvedToken = some tok →
      st.resolvedUserId = some uid → uid ≠ "" →
      (getAuthHeader config st loginRes).2 =
        .ok ("Basic " ++ base64Encode (uid ++ ":" ++ tok))) ∧
    (usesEmailAuth config = true → st.resolvedToken = none →
      loginRes = .ok r → r.userId ≠ "" →
      (getAuthHeader config st loginRes).2 =
        .ok ("Basic " ++ base64Encode (r.userId ++ ":" ++ r.token))) ∧
    (usesEmailAuth config = false → st.resolvedToken = none →
      config.token = some tok →
      (getAuthHeader config st loginRes).2 =
        .ok (if config.authType = .basic then "Basic " ++ tok
             else "Bearer " ++ tok)) := by
  refine ⟨fun h1 h2 h3 h4 => ?_, fun h1 h2 h3 h4 => ?_, fun h1 h2 h3 => ?_⟩
  · simp [getAuthHeader, getCredentials, h1, h2, h3, truthy, h4]
  · have hep : truthy config.email = true ∧ truthy config.password = true := by
      simpa [usesEmailAuth] using h1
    subst h3
    have hstep : getCredentials config st (.ok r) =
        ({ st with
            resolvedToken := some r.token
            resolvedUserId := some r.userId
            subscriptionStatus := some r.subscriptionStatus },
          .ok (r.token, some r.userId)) := by
      simp only [getCredentials, h2, hep.1, hep.2, h1]
      simp
    simp only [getAuthHeader, hstep]
    simp [h1, truthy, h4]
  · have hstep : getCredentials config st loginRes = (st, .ok (tok, none)) := by
      simp [getCredentials, h2, h1, h3]
    cases hat : config.authType with
    | basic => simp [getAuthHeader, hstep, h1, truthy, hat]
    | bearer => simp [getAuthHeader, hstep, h1, truthy, hat]

/-- C2 witness: concrete headers in each mode (`base64("u:tok") = "dTp0b2s="`). -/
theorem c2_authorization_header_witness :
    (getAuthHeader cfgEmail stCached (.error (authenticationError))).2 =
      .ok ("Basic " ++ base64Encode ("u" ++ ":" ++ "tok")) ∧
    (getAuthHeader cfgTokenBasic stEmpty (.error (authenticationError))).2 =
      .ok "Basic tok123" ∧
    (getAuthHeader cfgTokenBearer stEmpty (.error (authenticationError))).2 =
      .ok "Bearer tok123" := by
  refine ⟨(c2_authorization_header cfgEmail stCached "u" "tok" ⟨"", "", "", ""⟩ _).1
      rfl rfl rfl (by decide), ?_, ?_⟩
  · have h := (c2_authorization_header cfgTokenBasic stEmpty "" "tok123" ⟨"", "", "", ""⟩
      (.error (authenticationError))).2.2 rfl rfl rfl
    simpa using h
  · have h := (c2_authorization_header cfgTokenBearer stEmpty "" "tok123" ⟨"", "", "", ""⟩
      (.error (authenticationError))).2.2 rfl rfl rfl
    simpa using h

/-- C5: for every calendar-events query whose inclusive end date parses as a
civil date, the upstream query sends `date_max` equal to that date plus one
day and passes `date_min` through unchanged; concretely, an end date of
2025-06-15 is sent as `date_max` 2025-06-16. -/
theorem c5_date_max_plus_one (endpoint dateMin dateMax clientTz : String)
    (tz includeOpt : Option String) (y m d : Nat)
    (h : parseIsoDate dateMax = some (y, m, d)) :
    (∃ ps, getCalendarEventsParams dateMin dateMax tz includeOpt clientTz = some ps ∧
      (buildUrl endpoint (some ps)).2 =
        [("date_min", dateMin),
         ("date_max", formatIsoDate (daysFromCivil y m d + 1)),
         ("timezone", tz.getD clientTz)] ++
        (match includeOpt with
         | some i => [("include", i)]
         | none => [])) ∧
    addDays "2025-06-15" 1 = some "2025-06-16" := by
  constructor
  · refine ⟨[("date_min", some (.str dateMin)),
      ("date_max", some (.str (formatIsoDate (daysFromCivil y m d + 1)))),
      ("timezone", some (.str (tz.getD clientTz))),
      ("include", includeOpt.map .str)], by simp [getCalendarEventsParams, addDays, h], ?_⟩
    cases includeOpt with
    | none => simp [buildUrl, searchParamsSet, paramString]
    | some i => simp [buildUrl, searchParamsSet, paramString]
  · decide

/-- C5 witness: the concrete query of the spec's example. -/
theorem c5_date_max_plus_one_witness :
    ∃ ps, getCalendarEventsParams "2025-06-15" "2025-06-15" none none "tz1" = some ps ∧
      (buildUrl "/api/frames/f1/calendar_events" (some ps)).2 =
        [("date_min", "2025-06-15"), ("date_max", "2025-06-16"),
         ("timezone", "tz1")] := by
  have h := (c5_date_max_plus_one "/api/frames/f1/calendar_events" "2025-06-15"
    "2025-06-15" "tz1" none none 2025 6 15 (by decide)).1
  rcases h with ⟨ps, hps, hq⟩
  refine ⟨ps, hps, ?_⟩
  rw [hq]
  rw [show formatIsoDate (daysFromCivil 2025 6 15 + 1) = "2025-06-16" from by decide]
  rfl

/-- C3 (evaluation of the divergence): a dispatch whose response is
304 Not Modified does not return the empty result the dedicated 304 branch
would produce — `response.ok` is false for 304, so the error classifier runs
first and the dispatch fails with the generic `HTTP 304` transport error;
other success statuses do return the JSON body. -/
theorem c3_not_modified_is_error :
    (request cfgEmail stCached loginFresh fetchAlways304 false).2.1 =
      .error (skylightError "HTTP 304" "HTTP_ERROR" (some 304) false) ∧
    (request cfgEmail stCached loginFresh fetchAlways200 false).2.1 =
      .ok "BODY" := by
  constructor
  · simp [request]
    decide
  · simp [request]
    decide

/-- C4 counterexample: a delegated-login dispatch that receives a 401 on its
first attempt and then succeeds on the retry ends with the freshly obtained
credential cached — the cached credential is not absent after this dispatch,
although a 401 was received during it. -/
theorem c4_counterexample_retry_recaches :
    (fetch401Then200 false).status = 401 ∧
    usesEmailAuth cfgEmail = true ∧
    (request cfgEmail stCached loginFresh fetch401Then200 false).1.resolvedToken =
      some "new" := by
  refine ⟨rfl, rfl, ?_⟩
  simp [request]
  decide

/-- C1: a 401 in delegated-login mode on a non-retry dispatch invalidates the
cached credential and re-runs the whole dispatch exactly once with the retry
flag set (the trace gains exactly the retry attempt); the retry attempt
itself performs at most one network attempt, always flagged as the retry; a
401 on the retry attempt fails with `AuthenticationError` (frame-id hint)
without a further attempt; and a 401 in direct-token mode fails immediately
with the generic `AuthenticationError` and no retry. -/
theorem c1_retry_once_semantics (config : Config) (st st1 : ClientState)
    (hdr : String) (loginRes : Bool → Except SkylightError LoginResult)
    (fetch : Bool → Response) :
    (usesEmailAuth config = true → (fetch false).status = 401 →
      getAuthHeader config st (loginRes false) = (st1, .ok hdr) →
      request config st loginRes fetch false =
        (let rr := request config
            { st1 with resolvedToken := none, resolvedUserId := none }
            loginRes fetch true
         (rr.1, rr.2.1, false :: rr.2.2))) ∧
    (∀ st' : ClientState,
      (request config st' loginRes fetch true).2.2.length ≤ 1 ∧
      ∀ b ∈ (request config st' loginRes fetch true).2.2, b = true) ∧
    (usesEmailAuth config = true → (fetch true).status = 401 →
      getAuthHeader config st (loginRes true) = (st1, .ok hdr) →
      request config st loginRes fetch true =
        ({ st1 with resolvedToken := none, resolvedUserId := none },
          .error (authenticationError frameIdHintMessage), [true])) ∧
    (usesEmailAuth config = false → (fetch false).status = 401 →
      getAuthHeader config st (loginRes false) = (st1, .ok hdr) →
      request config st loginRes fetch false =
        ({ st1 with resolvedToken := none, resolvedUserId := none },
          .error (authenticationError authDefaultMessage), [false])) := by
  refine ⟨fun hm h401 hga => ?_, fun st' => ?_, fun hm h401 hga => ?_,
    fun hm h401 hga => ?_⟩
  · rw [request.eq_def, hga]
    simp [h401, hm, responseOk]
  · rw [request.eq_def]
    rcases hga : getAuthHeader config st' (loginRes true) with ⟨st1', res⟩
    cases res with
    | error e => simp
    | ok hdr' =>
      by_cases hok : responseOk (fetch true).status = false
      · simp [hok]
      · simp [hok]
        by_cases h304 : (fetch true).status = 304
        · simp [h304]
        · simp [h304]
  · rw [request.eq_def, hga]
    simp [h401, hm, responseOk, handleResponseError]
  · rw [request.eq_def, hga]
    simp [h401, hm, responseOk, handleResponseError]

/-- C1 witness: with a cached delegated-login credential and 401 answers on
both attempts, the dispatch retries exactly once (trace `[false, true]`) and
fails with the frame-id-hint `AuthenticationError`. -/
theorem c1_retry_once_semantics_witness :
    request cfgEmail stCached loginFresh fetchAlways401 false =
      (⟨none, none, some "plus"⟩, .error (authenticationError frameIdHintMessage),
        [false, true]) := by
  have h1 := (c1_retry_once_semantics cfgEmail stCached stCached
    ("Basic " ++ base64Encode "u:tok") loginFresh fetchAlways401).1 rfl rfl rfl
  have h2 := (c1_retry_once_semantics cfgEmail stEmpty
    ⟨some "new", some "u2", some "plus"⟩ ("Basic " ++ base64Encode "u2:new")
    loginFresh fetchAlways401).2.2.1 rfl rfl rfl
  rw [h1]
  have hX : ({ resolvedToken := none
               resolvedUserId := none
               subscriptionStatus := stCached.subscriptionStatus } : ClientState) =
      stEmpty := rfl
  rw [hX, h2]

theorem getCredentials_error_state (config : Config) (st stx : ClientState)
    (lr : Except SkylightError LoginResult) (e : SkylightError)
    (h : getCredentials config st lr = (stx, .error e)) : stx = st := by
  unfold getCredentials at h
  rcases hst : st.resolvedToken with _ | t <;> rw [hst] at h
  · by_cases hm : usesEmailAuth config = false
    · rw [if_pos hm] at h
      simp at h
    · rw [if_neg hm] at h
      by_cases hg : truthy config.email = false ∨ truthy config.password = false
      · rw [if_pos hg] at h
        simpa using (congrArg Prod.fst h).symm
      · rw [if_neg hg] at h
        cases lr with
        | error e' => simpa using (congrArg Prod.fst h).symm
        | ok r => simp at h
  · simp at h

theorem getAuthHeader_error_state (config : Config) (st stx : ClientState)
    (lr : Except SkylightError LoginResult) (e : SkylightError)
    (h : getAuthHeader config st lr = (stx, .error e)) : stx = st := by
  rcases hgc : getCredentials config st lr with ⟨sty, resy⟩
  cases resy with
  | error e' =>
    have hh : getAuthHeader config st lr = (sty, .error e') := by
      unfold getAuthHeader
      rw [hgc]
    rw [hh] at h
    have h1 : sty = stx := by simpa using congrArg Prod.fst h
    rw [← h1]
    exact getCredentials_error_state config st sty lr e' hgc
  | ok creds =>
    exfalso
    have hh : getAuthHeader config st lr =
        (if usesEmailAuth config = true ∧ truthy creds.2 = true then
          (sty, .ok ("Basic " ++ base64Encode (creds.2.getD "" ++ ":" ++ creds.1)))
        else if config.authType = .basic then (sty, .ok ("Basic " ++ creds.1))
        else (sty, .ok ("Bearer " ++ creds.1))) := by
      unfold getAuthHeader
      rw [hgc]
    rw [hh] at h
    by_cases hc : usesEmailAuth config = true ∧ truthy creds.2 = true
    · rw [if_pos hc] at h
      simp at h
    · rw [if_neg hc] at h
      by_cases hat : config.authType = .basic
      · rw [if_pos hat] at h
        simp at h
      · rw [if_neg hat] at h
        simp at h

theorem retry401_leaves_no_token (config : Config) (st2 : ClientState)
    (loginRes : Bool → Except SkylightError LoginResult) (fetch : Bool → Response)
    (hm : usesEmailAuth config = true) (h401r : (fetch true).status = 401)
    (h0 : st2.resolvedToken = none) :
    (request config st2 loginRes fetch true).1.resolvedToken = none := by
  rw [request.eq_def]
  rcases hga2 : getAuthHeader config st2 (loginRes true) with ⟨stx, resx⟩
  cases resx with
  | error e =>
    have hx := getAuthHeader_error_state config st2 stx (loginRes true) e hga2
    simp [hx, h0]
  | ok hdrx =>
    simp [h401r, hm, responseOk, handleResponseError]

/-- C4 (amended): every 401 clears the cached credential at the moment it is
handled — `handleResponseError` on a 401 returns a credential-free state in
every auth mode; a dispatch that fails with `AuthenticationError` after a 401
(direct-token mode, or a second 401 on the retry attempt) ends with no cached
credential; and on the retrying path the re-dispatch starts from a cleared
credential, so the retry's credential resolution performs a fresh login
rather than returning the old token.  (After a *successful* retry the freshly
obtained credential is cached, so the final state is not credential-free in
that case; see the counterexample.) -/
theorem c4_amended_401_invalidation (config : Config) (st st1 : ClientState)
    (hdr : String) (loginRes : Bool → Except SkylightError LoginResult)
    (fetch : Bool → Response) :
    (∀ resp : Response, resp.status = 401 →
      (handleResponseError config st resp).1.resolvedToken = none ∧
      (handleResponseError config st resp).1.resolvedUserId = none) ∧
    (usesEmailAuth config = false → (fetch false).status = 401 →
      getAuthHeader config st (loginRes false) = (st1, .ok hdr) →
      (request config st loginRes fetch false).1.resolvedToken = none) ∧
    (usesEmailAuth config = true → (fetch false).status = 401 →
      (fetch true).status = 401 →
      getAuthHeader config st (loginRes false) = (st1, .ok hdr) →
      (request config st loginRes fetch false).1.resolvedToken = none) ∧
    (usesEmailAuth config = true → (fetch false).status = 401 →
      getAuthHeader config st (loginRes false) = (st1, .ok hdr) →
      request config st loginRes fetch false =
        (let rr := request config
            { st1 with resolvedToken := none, resolvedUserId := none }
            loginRes fetch true
         (rr.1, rr.2.1, false :: rr.2.2))) := by
  refine ⟨fun resp h401 => ?_, fun hm h401 hga => ?_, fun hm h401 h401r hga => ?_,
    fun hm h401 hga => ?_⟩
  · cases hmode : usesEmailAuth config <;> simp [handleResponseError, h401, hmode]
  · rw [request.eq_def, hga]
    simp [h401, hm, responseOk, handleResponseError]
  · rw [request.eq_def, hga]
    simp [h401, hm, responseOk]
    exact retry401_leaves_no_token config _ loginRes fetch hm h401r rfl
  · rw [request.eq_def, hga]
    simp [h401, hm, responseOk]

/-- C4 amended witness: with a direct-token configuration a 401 leaves no
cached credential, and in delegated-login mode two consecutive 401s leave no
cached credential. -/
theorem c4_amended_401_invalidation_witness :
    (request cfgTokenBearer stEmpty loginFresh fetchAlways401 false).1.resolvedToken =
      none ∧
    (request cfgEmail stCached loginFresh fetchAlways401 false).1.resolvedToken =
      none := by
  constructor
  · exact (c4_amended_401_invalidation cfgTokenBearer stEmpty stEmpty "Bearer tok123"
      loginFresh fetchAlways401).2.1 rfl rfl rfl
  · exact (c4_amended_401_invalidation cfgEmail stCached stCached
      ("Basic " ++ base64Encode "u:tok") loginFresh fetchAlways401).2.2.1 rfl rfl rfl rfl

/-- C9: in delegated-login mode with no cached credential, (1) along every
schedule at most one login exchange is in flight at any instant; (2) once all
`N ≥ 1` concurrent callers have run their synchronous prefixes (before the
network settles — the meaning of "concurrent"), exactly one login exchange
has been started, it is the one in flight, and every caller is attached to
it; and (3) every completed schedule from that point ends with exactly one
login exchange performed in total and every caller observing the same result,
the one determined by the single exchange's outcome (same token on success,
same failure on rejection). -/
theorem c9_single_login (config : Config) (o : LoginOutcome) (n : Nat)
    (hm : usesEmailAuth config = true) (hn : 0 < n) :
    (∀ es s, runTrace config o (initPool n) es = some s → s.loginsInFlight ≤ 1) ∧
    (∀ es1 s1, Ev.resolve ∉ es1 → runTrace config o (initPool n) es1 = some s1 →
      (∀ pc ∈ s1.pcs, pc ≠ .start) →
      s1.loginsStarted = 1 ∧ s1.loginsInFlight = 1 ∧ s1.loginActive = true ∧
        s1.loginOutcome = none ∧ s1.resolvedToken = none ∧
        ∀ pc ∈ s1.pcs, pc = .awaitOwner ∨ pc = .awaitShared) ∧
    (∀ es1 es2 s1 s2, Ev.resolve ∉ es1 →
      runTrace config o (initPool n) es1 = some s1 →
      (∀ pc ∈ s1.pcs, pc ≠ .start) →
      runTrace config o s1 es2 = some s2 →
      (∀ pc ∈ s2.pcs, ∃ r, pc = .done r) →
      s2.loginsStarted = 1 ∧ ∀ pc ∈ s2.pcs, pc = .done (outcomeResult o)) := by
  have hinit1 : poolInv1 (initPool n) := by simp [poolInv1, initPool]
  have hinitQ : poolPhase1 n (initPool n) := by
    refine ⟨rfl, rfl, by simp [initPool], Or.inl ⟨rfl, rfl, rfl, ?_⟩⟩
    intro pc hm'
    simpa using List.eq_of_mem_replicate hm'
  have hP1 : ∀ es1 s1, Ev.resolve ∉ es1 →
      runTrace config o (initPool n) es1 = some s1 →
      (∀ pc ∈ s1.pcs, pc ≠ .start) →
      s1.loginsStarted = 1 ∧ s1.loginsInFlight = 1 ∧ s1.loginActive = true ∧
        s1.loginOutcome = none ∧ s1.resolvedToken = none ∧
        ∀ pc ∈ s1.pcs, pc = .awaitOwner ∨ pc = .awaitShared := by
    intro es1 s1 hnr hrun hnostart
    have hQ := runTrace_preserve_run config o
      (fun s s' i hP h => step_run_poolPhase1 config o s s' n i hm hP h)
      es1 hnr (initPool n) s1 hinitQ hrun
    obtain ⟨htok, hout, hlen, hcase⟩ := hQ
    rcases hcase with ⟨hf, hst, hif, hall⟩ | ⟨ha, hst, hif, hall⟩
    · exfalso
      rcases hpcs : s1.pcs with _ | ⟨pc0, rest⟩
      · rw [hpcs] at hlen
        simp at hlen
        omega
      · have h1 := hall pc0 (by rw [hpcs]; exact List.mem_cons_self _ _)
        have h2 := hnostart pc0 (by rw [hpcs]; exact List.mem_cons_self _ _)
        exact h2 h1
    · refine ⟨hst, hif, ha, hout, htok, ?_⟩
      intro pc hm'
      rcases hall pc hm' with h | h | h
      · exact absurd h (hnostart pc hm')
      · exact Or.inl h
      · exact Or.inr h
  refine ⟨?_, hP1, ?_⟩
  · intro es s hrun
    have hI := runTrace_preserve config o
      (fun s s' e hP h => step_poolInv1 config o s s' e hP h) es (initPool n) s
      hinit1 hrun
    unfold poolInv1 at hI
    split at hI <;> omega
  · intro es1 es2 s1 s2 hnr hrun1 hnostart hrun2 hdone
    obtain ⟨hst, hif, ha, hout, htok, hall⟩ := hP1 es1 s1 hnr hrun1 hnostart
    have hR1 : poolPhase2 o s1 := by
      refine ⟨hst, Or.inl hout, ?_⟩
      intro pc hm'
      rcases hall pc hm' with h | h
      · exact Or.inl h
      · exact Or.inr (Or.inl h)
    have hR2 := runTrace_preserve config o
      (fun s s' e hP h => step_poolPhase2 config o s s' e hP h) es2 s1 s2 hR1 hrun2
    obtain ⟨hst2, _, hpc2⟩ := hR2
    refine ⟨hst2, ?_⟩
    intro pc hm'
    rcases hpc2 pc hm' with h | h | h
    · obtain ⟨r, hr⟩ := hdone pc hm'
      rw [hr] at h
      simp at h
    · obtain ⟨r, hr⟩ := hdone pc hm'
      rw [hr] at h
      simp at h
    · exact h

/-- C9 witness: two concurrent delegated-login callers; both synchronous
prefixes run, the login settles once, both resume — one login exchange in
total and both callers end with the same token. -/
theorem c9_single_login_witness :
    runTrace cfgEmail loginOutcomeW (initPool 2) es1W = some poolMidW ∧
    runTrace cfgEmail loginOutcomeW poolMidW es2W = some poolFinW ∧
    poolFinW.loginsStarted = 1 ∧ poolFinW.loginsInFlight ≤ 1 ∧
    poolFinW.pcs = [.done (outcomeResult loginOutcomeW),
      .done (outcomeResult loginOutcomeW)] := by
  have h := (c9_single_login cfgEmail loginOutcomeW 2 rfl (by decide)).2.2 es1W es2W
    poolMidW poolFinW (by decide) (by decide) (by decide) (by decide)
    (by
      intro pc hm'
      simp [poolFinW] at hm'
      subst hm'
      exact ⟨_, rfl⟩)
  have h1 := (c9_single_login cfgEmail loginOutcomeW 2 rfl (by decide)).1
    (es1W ++ es2W) poolFinW (by decide)
  exact ⟨by decide, by decide, h.1, h1, by decide⟩

end Skylight
